import Mathlib

/-!
Shallow embedding of the LC-3 emulator (src/main.rs, src/ops.rs).

16-bit machine words (Rust `u16`) are modelled as `Nat` with explicit
`% 65536` at the points where the Rust `u16` type truncates or wraps;
signed 16-bit values (Rust `i16`) are modelled as `Int`.  Overflowing
`u16` arithmetic (`wrapping_add`, and the plain `+` on `u16`, which
wraps in an optimized build) is modelled as addition followed by
`% 65536`.
-/

namespace LC3

/-- Rust `value as i16`: reinterpret the low 16 bits of a word as a
two's-complement signed integer. -/
def toI16 (n : Nat) : Int :=
  if n % 65536 < 32768 then (n % 65536 : Int) else (n % 65536 : Int) - 65536

/-- Rust `i as u16` for `i : i16`: reinterpret a signed 16-bit value as an
unsigned word (two's complement). -/
def i16_to_u16 (i : Int) : Nat :=
  (i % 65536).toNat

/-- Rust `a.wrapping_add(i as u16)` for `a : u16`, `i : i16`. -/
def wrap_add (a : Nat) (i : Int) : Nat :=
  (a + i16_to_u16 i) % 65536

/-- `ops.rs` `select_u16`: extract the unsigned bit field `hi..lo` of `instr`. -/
def select_u16 (instr hi lo : Nat) : Nat :=
  let width := hi - lo
  let mask := (2 ^ (width + 1) - 1) <<< lo
  (instr &&& mask) >>> lo

/-- `ops.rs` `select_bool`: a single bit of `instr` as a boolean. -/
def select_bool (instr bit : Nat) : Bool :=
  select_u16 instr bit bit != 0

/-- `ops.rs` `select_i16`: extract the bit field `hi..lo` and sign-extend it
from its field width to 16 bits (then reinterpret as `i16`). -/
def select_i16 (instr hi lo : Nat) : Int :=
  let width := hi - lo
  let mask := (2 ^ (width + 1) - 1) <<< lo
  let result := (instr &&& mask) >>> lo
  if result &&& (1 <<< width) = 0 then
    toI16 result
  else
    toI16 (result ||| ((2 ^ (15 - width + 1) - 1) <<< width))

/-- `ops.rs` `enum Op`: the decoded instruction.  Register fields are `Nat`
(Rust `u16`), signed offsets/immediates are `Int` (Rust `i16`), the trap
vector is the low byte (Rust `u8`). -/
inductive Op where
  | Nop
  | Not (dst src : Nat)
  | AddReg (dst src1 src2 : Nat)
  | AddImm (dst src : Nat) (imm : Int)
  | AndReg (dst src1 src2 : Nat)
  | AndImm (dst src : Nat) (imm : Int)
  | Load (dst : Nat) (offset : Int)
  | LoadInd (dst : Nat) (offset : Int)
  | LoadReg (dst base : Nat) (offset : Int)
  | LoadEffAddr (dst : Nat) (offset : Int)
  | Store (src : Nat) (offset : Int)
  | StoreInd (src : Nat) (offset : Int)
  | StoreReg (src base : Nat) (offset : Int)
  | Call (offset : Int)
  | CallReg (src : Nat)
  | Branch (n z p : Bool) (offset : Int)
  | Jump (base : Nat)
  | Trap (vector : Nat)
  deriving Repr, DecidableEq

/-- `ops.rs` `decode`: the top four bits select the opcode; the remaining
bits are opcode-specific fields.  Opcodes `0b1000` and `0b1101` (and, for a
`u16`, no others) fall through to the unknown-opcode arm, which returns
`None`. -/
def decode (instr : Nat) : Option Op :=
  match select_u16 instr 15 12 with
  | 0b0000 => some (.Branch (select_bool instr 11) (select_bool instr 10)
      (select_bool instr 9) (select_i16 instr 8 0))
  | 0b0001 =>
    match select_bool instr 5 with
    | false => some (.AddReg (select_u16 instr 11 9) (select_u16 instr 8 6)
        (select_u16 instr 2 0))
    | true => some (.AddImm (select_u16 instr 11 9) (select_u16 instr 8 6)
        (select_i16 instr 4 0))
  | 0b0010 => some (.Load (select_u16 instr 11 9) (select_i16 instr 8 0))
  | 0b0011 => some (.Store (select_u16 instr 11 9) (select_i16 instr 8 0))
  | 0b0100 =>
    match select_bool instr 11 with
    | false => some (.CallReg (select_u16 instr 8 6))
    | true => some (.Call (select_i16 instr 10 0))
  | 0b0101 =>
    match select_bool instr 5 with
    | false => some (.AndReg (select_u16 instr 11 9) (select_u16 instr 8 6)
        (select_u16 instr 2 0))
    | true => some (.AndImm (select_u16 instr 11 9) (select_u16 instr 8 6)
        (select_i16 instr 4 0))
  | 0b0110 => some (.LoadReg (select_u16 instr 11 9) (select_u16 instr 8 6)
      (select_i16 instr 5 0))
  | 0b0111 => some (.StoreReg (select_u16 instr 11 9) (select_u16 instr 8 6)
      (select_i16 instr 5 0))
  | 0b1001 => some (.Not (select_u16 instr 11 9) (select_u16 instr 8 6))
  | 0b1010 => some (.LoadInd (select_u16 instr 11 9) (select_i16 instr 8 0))
  | 0b1011 => some (.StoreInd (select_u16 instr 11 9) (select_i16 instr 8 0))
  | 0b1100 => some (.Jump (select_u16 instr 8 6))
  | 0b1110 => some (.LoadEffAddr (select_u16 instr 11 9) (select_i16 instr 8 0))
  | 0b1111 => some (.Trap (select_u16 instr 7 0 % 256))
  | _ => none

example : decode 0x12BF = some (.AddImm 1 2 (-1)) := by decide
example : decode 0xF025 = some (.Trap 0x25) := by decide
example : decode 0x8000 = none := by decide
example : decode 0xD123 = none := by decide
example : decode 0x2005 = some (.Load 0 5) := by decide
example : decode 0x1283 = some (.AddReg 1 2 3) := by decide

/-- `main.rs` `struct Registers`: 8 general registers (a `Vec<u16>` of
length 8), the program counter, and the three condition flags. -/
structure Registers where
  r : List Nat
  pc : Nat
  n : Bool
  z : Bool
  p : Bool
  deriving Repr, DecidableEq

/-- `Registers::new`. -/
def Registers.new : Registers :=
  { r := List.replicate 8 0, pc := 0, n := false, z := false, p := false }

/-- `Registers::get`: `self.r[index]`.  Decoded register indices are always
in bounds (see the claim about decoded fields); the default `0` is never
exercised there. -/
def Registers.get (regs : Registers) (index : Nat) : Nat :=
  regs.r.getD index 0

/-- `Registers::set`: store the word and recompute the N/Z/P flags from its
signed (two's-complement) interpretation.  The leading `% 65536` reflects
the `u16` type of the `value` parameter. -/
def Registers.set (regs : Registers) (index value : Nat) : Registers :=
  let value := value % 65536
  let r := regs.r.set index value
  if toI16 value < 0 then
    { regs with r := r, n := true, z := false, p := false }
  else if value = 0 then
    { regs with r := r, n := false, z := true, p := false }
  else
    { regs with r := r, n := false, z := false, p := true }

/-- `main.rs` `KB_STATUS`: address of the keyboard status register. -/
def KB_STATUS : Nat := 0xfe00

/-- `main.rs` `KB_DATA`: address of the keyboard data register. -/
def KB_DATA : Nat := 0xfe02

/-- `main.rs` `struct Memory`: the 65536-word `Vec<u16>` is modelled as its
lookup function (address below 65536 to stored word). -/
structure Memory where
  memory : Nat → Nat

/-- `Memory::new`: all words zero. -/
def Memory.new : Memory :=
  { memory := fun _ => 0 }

/-- `Memory::store`: `self.memory[address] = value`, no special cases.  The
`% 65536` on both arguments reflects their `u16` types. -/
def Memory.store (m : Memory) (address value : Nat) : Memory :=
  { memory := fun a => if a = address % 65536 then value % 65536 else m.memory a }

/-- `main.rs` `getchar`: one blocking read from the character source,
modelled as taking the head of an input list; an exhausted source makes the
surrounding `unwrap` panic, modelled as `none`. -/
def getchar : List Nat → Option (Nat × List Nat)
  | [] => none
  | c :: rest => some (c, rest)

/-- `Memory::load`: the device poll.  A load of the keyboard status address
reads one character, sets the status cell to `1 << 15` and the data cell to
the character code; a load of any other address clears the status cell.
Then the (possibly just-written) cell at `address` is returned.  The input
stream is threaded explicitly; `none` models the panic on an exhausted
character source. -/
def Memory.load (m : Memory) (address : Nat) (input : List Nat) :
    Option (Nat × Memory × List Nat) :=
  if address % 65536 = KB_STATUS then
    match getchar input with
    | none => none
    | some (c, input') =>
      let m' := (m.store KB_STATUS (1 <<< 15)).store KB_DATA c
      some (m'.memory (address % 65536), m', input')
  else
    let m' := m.store KB_STATUS 0
    some (m'.memory (address % 65536), m', input)

/-- Helper for `Memory::copy`: the enumerated loop
`for (offset, word) in block.iter().enumerate() { store(base + offset as u16, word) }`,
with `offset as u16` as `offset % 65536` and the wrapping `u16` addition as
`% 65536`. -/
def Memory.copyAux (m : Memory) (base : Nat) (block : List Nat) (offset : Nat) :
    Memory :=
  match block with
  | [] => m
  | word :: rest =>
    Memory.copyAux (m.store ((base + offset % 65536) % 65536) word) base rest
      (offset + 1)

/-- `Memory::copy`: write a contiguous block starting at `base`. -/
def Memory.copy (m : Memory) (base : Nat) (block : List Nat) : Memory :=
  m.copyAux base block 0

/-- The machine state owned by the execution loop: registers, memory, the
pending input characters, and the characters printed so far. -/
structure State where
  regs : Registers
  mem : Memory
  input : List Nat
  output : List Nat

/-- Result of one fetch-decode-execute cycle.  `fatal` models the panics
(decode failure, unknown trap vector, exhausted character source). -/
inductive Outcome where
  | running (s : State)
  | halted (s : State)
  | fatal

/-- Whether an outcome is the halted state. -/
def Outcome.isHalted : Outcome → Bool
  | .halted _ => true
  | _ => false

/-- The program counter of a halted outcome. -/
def Outcome.haltedPc : Outcome → Option Nat
  | .halted s => some s.regs.pc
  | _ => none

/-- The registers of a non-fatal outcome. -/
def Outcome.regsOf : Outcome → Option Registers
  | .running s => some s.regs
  | .halted s => some s.regs
  | .fatal => none

/-- `main.rs` step 2: `regs.pc += 1`, wrapping at the `u16` boundary. -/
def advancePC (regs : Registers) : Registers :=
  { regs with pc := (regs.pc + 1) % 65536 }

/-- `regs.set(dst, mem.load(a))`: load the word at address `a` into `dst`
(shared shape of the `Load`, `LoadInd` and `LoadReg` arms). -/
def doLoad (dst a : Nat) (s : State) : Outcome :=
  match s.mem.load a s.input with
  | none => .fatal
  | some (v, mem, input) =>
    .running { s with regs := s.regs.set dst v, mem := mem, input := input }

/-- The `puts` trap loop (vector `0x22`): print low bytes of successive
words until a zero word.  `fuel` makes the recursion structural; the source
loop runs unboundedly, and fuel exhaustion is mapped to `.fatal` by the
caller (no claim depends on it). -/
def putsLoop (fuel i : Nat) (s : State) : Option State :=
  match fuel with
  | 0 => none
  | fuel + 1 =>
    match s.mem.load i s.input with
    | none => none
    | some (c, mem, input) =>
      if c = 0 then some { s with mem := mem, input := input }
      else
        putsLoop fuel ((i + 1) % 65536)
          { s with mem := mem, input := input, output := s.output ++ [c &&& 0xff] }

/-- `main.rs`: the body of the `match decoded` in the execution loop; `s`
already has the advanced program counter. -/
def exec (op : Op) (s : State) : Outcome :=
  match op with
  | .Nop => .running s
  | .Not dst src =>
    .running { s with regs := s.regs.set dst (s.regs.get src % 65536 ^^^ 65535) }
  | .AddReg dst src1 src2 =>
    .running { s with regs := s.regs.set dst ((s.regs.get src1 + s.regs.get src2) % 65536) }
  | .AddImm dst src imm =>
    .running { s with regs := s.regs.set dst ((s.regs.get src + i16_to_u16 imm) % 65536) }
  | .AndReg dst src1 src2 =>
    .running { s with regs := s.regs.set dst (s.regs.get src1 &&& s.regs.get src2) }
  | .AndImm dst src imm =>
    .running { s with regs := s.regs.set dst (s.regs.get src &&& i16_to_u16 imm) }
  | .Load dst offset => doLoad dst (wrap_add s.regs.pc offset) s
  | .LoadInd dst offset =>
    match s.mem.load (wrap_add s.regs.pc offset) s.input with
    | none => .fatal
    | some (addr, mem, input) => doLoad dst addr { s with mem := mem, input := input }
  | .LoadReg dst base offset => doLoad dst (wrap_add (s.regs.get base) offset) s
  | .LoadEffAddr dst offset =>
    .running { s with regs := s.regs.set dst (wrap_add s.regs.pc offset) }
  | .Store src offset =>
    .running { s with mem := s.mem.store (wrap_add s.regs.pc offset) (s.regs.get src) }
  | .StoreInd src offset =>
    match s.mem.load (wrap_add s.regs.pc offset) s.input with
    | none => .fatal
    | some (addr, mem, input) =>
      .running { s with mem := mem.store addr (s.regs.get src), input := input }
  | .StoreReg src base offset =>
    .running { s with mem := s.mem.store (wrap_add (s.regs.get base) offset) (s.regs.get src) }
  | .Call offset =>
    let regs := s.regs.set 7 s.regs.pc
    .running { s with regs := { regs with pc := wrap_add regs.pc offset } }
  | .CallReg src => .running { s with regs := { s.regs with pc := s.regs.get src } }
  | .Branch n z p offset =>
    if n && s.regs.n || z && s.regs.z || p && s.regs.p then
      .running { s with regs := { s.regs with pc := wrap_add s.regs.pc offset } }
    else
      .running s
  | .Jump base => .running { s with regs := { s.regs with pc := s.regs.get base } }
  | .Trap vector =>
    match vector with
    | 0x20 =>
      match getchar s.input with
      | none => .fatal
      | some (c, input) => .running { s with regs := s.regs.set 0 c, input := input }
    | 0x21 => .running { s with output := s.output ++ [s.regs.get 0 % 256] }
    | 0x22 =>
      match putsLoop 131072 (s.regs.get 0) s with
      | none => .fatal
      | some t => .running t
    | 0x25 => .halted s
    | _ => .fatal

/-- One iteration of the `main.rs` execution loop: fetch (with the device
poll of `Memory::load`), advance the program counter, decode, execute. -/
def step (s : State) : Outcome :=
  match s.mem.load s.regs.pc s.input with
  | none => .fatal
  | some (instr, mem, input) =>
    match decode instr with
    | none => .fatal
    | some op =>
      exec op { regs := advancePC s.regs, mem := mem, input := input, output := s.output }

/-- The word the cycle starting at `s` fetches (the value of
`mem.load(regs.pc)`). -/
def fetched (s : State) : Option Nat :=
  (s.mem.load s.regs.pc s.input).map (fun t => t.1)

/-- The opcode values (top four bits) that have an arm in `decode`. -/
def listedOpcodes : List Nat := [0, 1, 2, 3, 4, 5, 6, 7, 9, 10, 11, 12, 14, 15]

/-- Every register-index field of a decoded instruction is below 8, so the
`Vec` accesses of `Registers::get`/`Registers::set` are in bounds. -/
def regFieldsOk : Op → Prop
  | .Nop => True
  | .Not dst src => dst < 8 ∧ src < 8
  | .AddReg dst src1 src2 => dst < 8 ∧ src1 < 8 ∧ src2 < 8
  | .AddImm dst src _ => dst < 8 ∧ src < 8
  | .AndReg dst src1 src2 => dst < 8 ∧ src1 < 8 ∧ src2 < 8
  | .AndImm dst src _ => dst < 8 ∧ src < 8
  | .Load dst _ => dst < 8
  | .LoadInd dst _ => dst < 8
  | .LoadReg dst base _ => dst < 8 ∧ base < 8
  | .LoadEffAddr dst _ => dst < 8
  | .Store src _ => src < 8
  | .StoreInd src _ => src < 8
  | .StoreReg src base _ => src < 8 ∧ base < 8
  | .Call _ => True
  | .CallReg src => src < 8
  | .Branch _ _ _ _ => True
  | .Jump base => base < 8
  | .Trap _ => True

section BitfieldLemmas

lemma and_shl_shr (w m lo : Nat) : (w &&& (m <<< lo)) >>> lo = (w >>> lo) &&& m := by
  apply Nat.eq_of_testBit_eq
  intro i
  simp [Nat.testBit_shiftRight, Nat.testBit_and, Nat.testBit_shiftLeft, Nat.le_add_right]

lemma select_u16_eq (w hi lo : Nat) :
    select_u16 w hi lo = w >>> lo % 2 ^ (hi - lo + 1) := by
  unfold select_u16
  rw [and_shl_shr, Nat.and_pow_two_sub_one_eq_mod]

lemma select_u16_lt (w hi lo : Nat) : select_u16 w hi lo < 2 ^ (hi - lo + 1) := by
  rw [select_u16_eq]; exact Nat.mod_lt _ (Nat.two_pow_pos _)

lemma opcode_eq (w : Nat) (hw : w < 65536) : select_u16 w 15 12 = w >>> 12 := by
  rw [select_u16_eq, Nat.shiftRight_eq_div_pow]
  norm_num
  omega

lemma opcode_lt (w : Nat) (hw : w < 65536) : w >>> 12 < 16 := by
  rw [Nat.shiftRight_eq_div_pow]; omega

lemma reg_field_lt (w hi lo : Nat) (h : hi = lo + 2) : select_u16 w hi lo < 8 := by
  have := select_u16_lt w hi lo
  subst h
  simpa using this

lemma decode_none_of_op8 (w : Nat) (h : select_u16 w 15 12 = 8) : decode w = none := by
  unfold decode
  rw [h]

lemma decode_none_of_op13 (w : Nat) (h : select_u16 w 15 12 = 13) : decode w = none := by
  unfold decode
  rw [h]

end BitfieldLemmas

section MemoryLemmas

lemma copyAux_frame (block : List Nat) :
    ∀ (m : Memory) (base offset a : Nat),
      (∀ j, j < block.length → a ≠ (base + (offset + j) % 65536) % 65536) →
      (Memory.copyAux m base block offset).memory a = m.memory a := by
  induction block with
  | nil => intro m base offset a h; rfl
  | cons w rest ih =>
    intro m base offset a h
    show (Memory.copyAux _ base rest (offset + 1)).memory a = _
    rw [ih]
    · show (m.store ((base + offset % 65536) % 65536) w).memory a = m.memory a
      simp only [Memory.store]
      rw [if_neg]
      have := h 0 (by simp)
      omega
    · intro j hj
      have := h (j + 1) (by simp; omega)
      rw [show offset + 1 + j = offset + (j + 1) from by omega]
      exact this

lemma copyAux_get (block : List Nat) :
    ∀ (m : Memory) (base offset : Nat),
      offset + block.length ≤ 65536 →
      ∀ j (hj : j < block.length),
        (Memory.copyAux m base block offset).memory ((base + (offset + j)) % 65536) =
          block.get ⟨j, hj⟩ % 65536 := by
  induction block with
  | nil => intro m base offset hlen j hj; exact absurd hj (by simp)
  | cons w rest ih =>
    intro m base offset hlen j hj
    match j with
    | 0 =>
      show (Memory.copyAux (m.store ((base + offset % 65536) % 65536) w) base rest
        (offset + 1)).memory ((base + (offset + 0)) % 65536) = w % 65536
      rw [copyAux_frame]
      · simp only [Memory.store]
        rw [if_pos (by omega)]
      · intro j' hj'
        simp only [List.length_cons] at hlen
        omega
    | j' + 1 =>
      have hlen' : offset + 1 + rest.length ≤ 65536 := by
        simp only [List.length_cons] at hlen; omega
      have hj' : j' < rest.length := by
        simp only [List.length_cons] at hj; omega
      have := ih (m.store ((base + offset % 65536) % 65536) w) base (offset + 1) hlen' j' hj'
      show (Memory.copyAux (m.store ((base + offset % 65536) % 65536) w) base rest
        (offset + 1)).memory ((base + (offset + (j' + 1))) % 65536) =
        (w :: rest).get ⟨j' + 1, hj⟩ % 65536
      rw [show offset + (j' + 1) = offset + 1 + j' from by omega]
      exact this

end MemoryLemmas

/-- Concrete state for the PC-relative load witness: a `Load r0, #5`
instruction (`0x2005`) placed at `0x3000`, the program counter at
`0x3000`. -/
def c1state : State :=
  { regs := { Registers.new with pc := 0x3000 },
    mem := Memory.new.copy 0x3000 [0x2005],
    input := [], output := [] }

/-- The 3-word image scenario `[base=0x3000, 0xF025]` after loading: the
halt-only program copied to `0x3000` and the program counter at the base. -/
def haltImage : State :=
  { regs := { Registers.new with pc := 0x3000 },
    mem := Memory.new.copy 0x3000 [0xF025],
    input := [], output := [] }

/-- Concrete state for the AddImm scenario: instruction `0x12BF` at
`0x3000`, all registers zero (in particular r2 = 0). -/
def c9state : State :=
  { regs := { Registers.new with pc := 0x3000 },
    mem := Memory.new.copy 0x3000 [0x12BF],
    input := [], output := [] }

/-- C1: a decoded `Load` fetched from address `A` with offset field `k`
reads memory at address `(A + 1 + k) mod 65536`: the cycle advances the
program counter before executing, and the executed load is exactly a
`mem.load` of the already-advanced program counter plus the offset. -/
theorem load_pcrel_address (s : State) (A dst : Nat) (k : Int) (w : Nat)
    (m1 : Memory) (in1 : List Nat) (hA : s.regs.pc = A)
    (hfetch : s.mem.load A s.input = some (w, m1, in1))
    (hdec : decode w = some (.Load dst k)) :
    step s = doLoad dst (((A : Int) + 1 + k) % 65536).toNat
      { regs := advancePC s.regs, mem := m1, input := in1, output := s.output } := by
  unfold step
  rw [hA, hfetch]
  simp only [hdec]
  show doLoad dst (wrap_add (advancePC s.regs).pc k) _ = _
  congr 1
  unfold advancePC wrap_add i16_to_u16
  simp only [hA]
  omega

/-- C1 witness: `Load r0, #5` fetched from `0x3000` reads address
`(0x3000 + 1 + 5) mod 65536`. -/
theorem load_pcrel_address_witness :
    step c1state = doLoad 0 (((0x3000 : Int) + 1 + 5) % 65536).toNat
      { regs := advancePC c1state.regs, mem := c1state.mem.store KB_STATUS 0,
        input := [], output := [] } :=
  load_pcrel_address c1state 0x3000 0 5 0x2005 (c1state.mem.store KB_STATUS 0) []
    rfl rfl (by decide)

/-- C2: after `Registers::set r v`, exactly one of the N/Z/P flags is true
(their truth values sum to 1), with N true iff the two's-complement reading
of `v` is negative, Z true iff `v` is zero, and P true iff it is positive. -/
theorem set_flags_spec (regs : Registers) (r v : Nat) (_hr : r < 8)
    (hv : v < 65536) :
    ((regs.set r v).n.toNat + (regs.set r v).z.toNat + (regs.set r v).p.toNat = 1) ∧
    ((regs.set r v).n = true ↔ toI16 v < 0) ∧
    ((regs.set r v).z = true ↔ v = 0) ∧
    ((regs.set r v).p = true ↔ 0 < toI16 v) := by
  have hmod : v % 65536 = v := Nat.mod_eq_of_lt hv
  unfold Registers.set toI16
  simp only [hmod]
  split_ifs with h1 h2 <;> simp_all <;> omega

/-- C2 witness: writing `40000` (negative as an `i16`) to register 1. -/
theorem set_flags_spec_witness :
    ((Registers.new.set 1 40000).n.toNat + (Registers.new.set 1 40000).z.toNat +
      (Registers.new.set 1 40000).p.toNat = 1) ∧
    ((Registers.new.set 1 40000).n = true ↔ toI16 40000 < 0) ∧
    ((Registers.new.set 1 40000).z = true ↔ (40000 : Nat) = 0) ∧
    ((Registers.new.set 1 40000).p = true ↔ 0 < toI16 40000) :=
  set_flags_spec Registers.new 1 40000 (by decide) (by decide)

/-- C3: `Memory::load` at the keyboard status address consumes one input
character, writes `1 << 15` to the status cell and the character to the
data cell, and returns the (just-written) cell at the requested address; at
any other address it clears the status cell to 0, returns the cell at the
requested address, and changes no cell other than the status cell. -/
theorem load_device_poll (m : Memory) (a c : Nat) (rest input : List Nat)
    (ha : a < 65536) :
    (a = KB_STATUS →
      m.load a (c :: rest) =
        some (((m.store KB_STATUS (1 <<< 15)).store KB_DATA c).memory a,
          (m.store KB_STATUS (1 <<< 15)).store KB_DATA c, rest) ∧
      ((m.store KB_STATUS (1 <<< 15)).store KB_DATA c).memory KB_STATUS = 1 <<< 15) ∧
    (a ≠ KB_STATUS →
      m.load a input =
        some ((m.store KB_STATUS 0).memory a, m.store KB_STATUS 0, input) ∧
      (m.store KB_STATUS 0).memory KB_STATUS = 0 ∧
      (m.store KB_STATUS 0).memory a = m.memory a ∧
      ∀ b, b ≠ KB_STATUS → (m.store KB_STATUS 0).memory b = m.memory b) := by
  have hmod : a % 65536 = a := Nat.mod_eq_of_lt ha
  constructor
  · intro h
    subst h
    constructor
    · simp [Memory.load, getchar, KB_STATUS]
    · simp [Memory.store, KB_STATUS, KB_DATA]
  · intro h
    refine ⟨?_, ?_, ?_, ?_⟩
    · simp [Memory.load, hmod, h]
    · simp [Memory.store, KB_STATUS]
    · simp [Memory.store, KB_STATUS]
      intro hc
      exact absurd hc (by unfold KB_STATUS at h; omega)
    · intro b hb
      simp [Memory.store, KB_STATUS]
      intro hc
      exact absurd hc (by unfold KB_STATUS at hb; omega)

/-- C3 witness: a status-address load on input `[65]`, and a load of
address 5 on empty input. -/
theorem load_device_poll_witness :
    (Memory.new.load KB_STATUS (65 :: []) =
      some (((Memory.new.store KB_STATUS (1 <<< 15)).store KB_DATA 65).memory KB_STATUS,
        (Memory.new.store KB_STATUS (1 <<< 15)).store KB_DATA 65, []) ∧
      ((Memory.new.store KB_STATUS (1 <<< 15)).store KB_DATA 65).memory KB_STATUS =
        1 <<< 15) ∧
    Memory.new.load 5 [] =
      some ((Memory.new.store KB_STATUS 0).memory 5, Memory.new.store KB_STATUS 0, []) :=
  ⟨(load_device_poll Memory.new KB_STATUS 65 [] [] (by decide)).1 rfl,
   ((load_device_poll Memory.new 5 0 [] [] (by decide)).2 (by decide)).1⟩

/-- C4: decode is deterministic (equal words decode equally), and every
16-bit word whose top four bits are `0b1000` or `0b1101` — equivalently,
are not one of the listed opcodes — decodes to a failure (`none`). -/
theorem decode_reserved_opcodes_fail (w : Nat) :
    decode w = decode w ∧
    (w < 65536 → (w >>> 12 = 8 ∨ w >>> 12 = 13 ∨ w >>> 12 ∉ listedOpcodes) →
      decode w = none) := by
  refine ⟨rfl, fun hw h => ?_⟩
  have hop : select_u16 w 15 12 = w >>> 12 := opcode_eq w hw
  have hlt : w >>> 12 < 16 := opcode_lt w hw
  have h813 : w >>> 12 = 8 ∨ w >>> 12 = 13 := by
    rcases h with h | h | h
    · exact Or.inl h
    · exact Or.inr h
    · set k := w >>> 12 with hk
      interval_cases k <;> simp [listedOpcodes] at h ⊢
  rcases h813 with h | h
  · exact decode_none_of_op8 w (hop.trans h)
  · exact decode_none_of_op13 w (hop.trans h)

/-- C4 witness: `0x8000` (top bits `0b1000`) fails to decode. -/
theorem decode_reserved_opcodes_fail_witness : decode 0x8000 = none :=
  (decode_reserved_opcodes_fail 0x8000).2 (by decide) (by decide)

/-- C5 counterexample: the decode-failure value does not carry the
offending word — two distinct undecodable words yield the very same
failure value (`none`), so that value cannot contain the word. -/
theorem decode_failure_valueless_cex :
    decode 0x8000 = decode 0xD000 ∧ (0x8000 : Nat) ≠ 0xD000 := by
  decide

/-- C5 amended: the decode-failure result carries no data at all; it is the
same bare `none` for every word that fails to decode (the offending word is
only printed as a side-effect diagnostic, and even there only its 4-bit
opcode). -/
theorem decode_failure_carries_no_word (w w' : Nat) (h : decode w = none)
    (h' : decode w' = none) : decode w = decode w' := by
  rw [h, h']

/-- C5 witness: the reserved words `0x8000` and `0xD000` yield the same
failure value. -/
theorem decode_failure_carries_no_word_witness : decode 0x8000 = decode 0xD000 :=
  decode_failure_carries_no_word 0x8000 0xD000 (by decide) (by decide)

/-- C6: `Memory::copy base ws` (for a block that fits in the 65536-word
memory) writes word `i` of `ws` to address `(base + i) mod 65536` for every
`i`, wrapping past `0xFFFF`, and leaves every cell outside those addresses
unchanged. -/
theorem copy_block_wrapping (m : Memory) (base : Nat) (ws : List Nat)
    (hlen : ws.length ≤ 65536) (hws : ∀ w ∈ ws, w < 65536) :
    (∀ i (hi : i < ws.length),
      (m.copy base ws).memory ((base + i) % 65536) = ws.get ⟨i, hi⟩) ∧
    (∀ a, (∀ i, i < ws.length → a ≠ (base + i) % 65536) →
      (m.copy base ws).memory a = m.memory a) := by
  constructor
  · intro i hi
    have := copyAux_get ws m base 0 (by omega) i hi
    simp only [Nat.zero_add] at this
    rw [Memory.copy, this, Nat.mod_eq_of_lt (hws _ (ws.get_mem _ _))]
  · intro a h
    rw [Memory.copy, copyAux_frame]
    intro j hj
    have := h j hj
    omega

/-- C6 witness: copying `[11, 22]` to base `0xFFFF` writes `11` at `0xFFFF`
and `22` at the wrapped address `0`, leaving address 5 unchanged. -/
theorem copy_block_wrapping_witness :
    (Memory.new.copy 0xFFFF [11, 22]).memory 0xFFFF = 11 ∧
    (Memory.new.copy 0xFFFF [11, 22]).memory 0 = 22 ∧
    (Memory.new.copy 0xFFFF [11, 22]).memory 5 = Memory.new.memory 5 := by
  refine ⟨?_, ?_, ?_⟩
  · simpa using
      (copy_block_wrapping Memory.new 0xFFFF [11, 22] (by decide) (by decide)).1 0
        (by decide)
  · simpa using
      (copy_block_wrapping Memory.new 0xFFFF [11, 22] (by decide) (by decide)).1 1
        (by decide)
  · exact
      (copy_block_wrapping Memory.new 0xFFFF [11, 22] (by decide) (by decide)).2 5
        (by decide)

/-- C7: step 2 of every cycle advances the program counter by exactly one,
wrapping modulo 2^16 — a fetch from `0xFFFF` leaves the program counter at
`0` before execution — for every register state. -/
theorem pc_advance_wraps (regs : Registers) :
    (advancePC regs).pc = (regs.pc + 1) % 65536 ∧
    (regs.pc = 0xFFFF → (advancePC regs).pc = 0) := by
  refine ⟨rfl, fun h => ?_⟩
  simp [advancePC, h]

/-- C7 witness: advancing from `0xFFFF` wraps to `0`. -/
theorem pc_advance_wraps_witness :
    (advancePC { Registers.new with pc := 0xFFFF }).pc = 0 :=
  (pc_advance_wraps { Registers.new with pc := 0xFFFF }).2 rfl

/-- C8: the loop reaches `Halted` only by a cycle whose fetched word
decodes to `Trap 0x25` (every other decoded instruction leaves it
`Running` or aborts), and running the 3-word image `[base=0x3000, 0xF025]`
halts after exactly one fetch cycle with the program counter at `0x3001`. -/
theorem halted_only_by_trap_halt :
    (∀ s : State, (step s).isHalted = true →
      (fetched s).bind decode = some (.Trap 0x25)) ∧
    (step haltImage).haltedPc = some 0x3001 := by
  constructor
  · intro s h
    unfold step at h
    split at h
    · exact absurd h (by simp [Outcome.isHalted])
    · rename_i w m1 in1 heq
      split at h
      · exact absurd h (by simp [Outcome.isHalted])
      · rename_i op hdec
        unfold fetched
        rw [heq]
        simp only [Option.map_some', Option.some_bind, hdec]
        cases op <;>
          (simp only [exec, doLoad] at h
           repeat' split at h) <;>
          simp_all [Outcome.isHalted]
  · decide

/-- C8 witness: the halt-image cycle is a halting one, and its fetched word
decodes to `Trap 0x25`. -/
theorem halted_only_by_trap_halt_witness :
    (fetched haltImage).bind decode = some (Op.Trap 0x25) :=
  halted_only_by_trap_halt.1 haltImage (by rfl)

/-- C9: `decode 0x12BF` is `AddImm dst=1 src=2 imm=-1`, and executing the
cycle from a state with r2 = 0 sets r1 to `0xFFFF` with flags N true,
Z false, P false. -/
theorem addimm_scenario :
    decode 0x12BF = some (.AddImm 1 2 (-1)) ∧
    c9state.regs.get 2 = 0 ∧
    ((step c9state).regsOf).map (fun r => (r.get 1, r.n, r.z, r.p)) =
      some (0xFFFF, true, false, false) := by
  decide

/-- C10: every register-index field of a successfully decoded instruction
is below 8, so the register-file accesses made while executing it are in
bounds and the out-of-bounds branch is unreachable. -/
theorem decoded_fields_in_bounds (w : Nat) (op : Op) (h : decode w = some op) :
    regFieldsOk op := by
  unfold decode at h
  split at h <;> (try split at h) <;>
    first
      | exact Option.noConfusion h
      | (injection h with h
         subst h
         simp only [regFieldsOk]
         repeat' apply And.intro
         all_goals exact reg_field_lt w _ _ rfl)

/-- C10 witness: the fields of the decoded `0x12BF` are in bounds. -/
theorem decoded_fields_in_bounds_witness : regFieldsOk (Op.AddImm 1 2 (-1)) :=
  decoded_fields_in_bounds 0x12BF (Op.AddImm 1 2 (-1)) (by decide)

end LC3
